import Mathlib

/-!
Shallow embedding of the `ipynb-test` notebook testing tool
(`src/ipynb_test/cell.py` and `src/ipynb_test/tester.py`), together with
theorems settling the specification claims about the output-matching engine
(`CodeCell.test_match` and its helpers, called `OutputMatcher.matches` in the
specification) and the test orchestrator (`Tester`).

Output records and the values inside their `data`/`metadata` mappings are
arbitrary JSON values in the Python source; we model them with the `JsonValue`
type below.  Python `==` on such values is deep structural equality, modelled
by decidable equality on `JsonValue`.  Python functions that can raise an
uncaught exception on some inputs are modelled with an `Option` result
(`none` standing for the raised exception).
-/

/-- A JSON value, as stored in a notebook output record: the Python source
manipulates these as plain `str` / `list` / `dict` / scalar values. -/
inductive JsonValue where
  | str : String → JsonValue
  | num : Int → JsonValue
  | bool : Bool → JsonValue
  | null : JsonValue
  | arr : List JsonValue → JsonValue
  | obj : List (String × JsonValue) → JsonValue

/-- Structural (deep) equality of JSON values, modelling Python `==` on the
values stored in output records. -/
def JsonValue.beq : JsonValue → JsonValue → Bool
  | JsonValue.str a, JsonValue.str b => a == b
  | JsonValue.num a, JsonValue.num b => a == b
  | JsonValue.bool a, JsonValue.bool b => a == b
  | JsonValue.null, JsonValue.null => true
  | JsonValue.arr [], JsonValue.arr [] => true
  | JsonValue.arr (a :: as), JsonValue.arr (b :: bs) =>
      JsonValue.beq a b && JsonValue.beq (JsonValue.arr as) (JsonValue.arr bs)
  | JsonValue.obj [], JsonValue.obj [] => true
  | JsonValue.obj ((ka, va) :: as), JsonValue.obj ((kb, vb) :: bs) =>
      ka == kb && JsonValue.beq va vb
        && JsonValue.beq (JsonValue.obj as) (JsonValue.obj bs)
  | _, _ => false

theorem JsonValue.beq_iff : (a b : JsonValue) → (JsonValue.beq a b = true ↔ a = b)
  | JsonValue.str _, b => by cases b <;> simp [JsonValue.beq]
  | JsonValue.num _, b => by cases b <;> simp [JsonValue.beq]
  | JsonValue.bool _, b => by cases b <;> simp [JsonValue.beq]
  | JsonValue.null, b => by cases b <;> simp [JsonValue.beq]
  | JsonValue.arr [], b => by
      cases b with
      | arr bs => cases bs <;> simp [JsonValue.beq]
      | _ => simp [JsonValue.beq]
  | JsonValue.arr (a :: as), b => by
      cases b with
      | arr bs =>
          cases bs with
          | nil => simp [JsonValue.beq]
          | cons b bs =>
              rw [JsonValue.beq, Bool.and_eq_true, JsonValue.beq_iff a b,
                JsonValue.beq_iff (JsonValue.arr as) (JsonValue.arr bs)]
              simp
      | _ => simp [JsonValue.beq]
  | JsonValue.obj [], b => by
      cases b with
      | obj bs => cases bs <;> simp [JsonValue.beq]
      | _ => simp [JsonValue.beq]
  | JsonValue.obj ((ka, va) :: as), b => by
      cases b with
      | obj bs =>
          cases bs with
          | nil => simp [JsonValue.beq]
          | cons kvb bs =>
              obtain ⟨kb, vb⟩ := kvb
              rw [JsonValue.beq, Bool.and_eq_true, Bool.and_eq_true,
                JsonValue.beq_iff va vb,
                JsonValue.beq_iff (JsonValue.obj as) (JsonValue.obj bs)]
              simp [and_assoc]
      | _ => simp [JsonValue.beq]

instance : BEq JsonValue := ⟨JsonValue.beq⟩

instance : LawfulBEq JsonValue where
  eq_of_beq h := (JsonValue.beq_iff _ _).mp h
  rfl := (JsonValue.beq_iff _ _).mpr rfl

instance : DecidableEq JsonValue :=
  fun a b => decidable_of_iff _ (JsonValue.beq_iff a b)

/-- Extracts the list of strings of a Python list value whose elements are all
strings; `none` when some element is not a string (where Python
`"".join(...)` would raise `TypeError`). -/
def allStringFragments : List JsonValue → Option (List String)
  | [] => some []
  | JsonValue.str s :: rest => (allStringFragments rest).map (fun ss => s :: ss)
  | _ :: _ => none

/-- The line-fragment normalization applied by `CodeCell._compare_multiline_text`:
`"".join(text) if isinstance(text, list) else text`.  A list of string
fragments is joined into one string with no separator; any other value is
kept as-is.  (A list containing a non-string makes Python raise; such values
never occur in the notebook schema and are left untouched here.) -/
def normalize_text (v : JsonValue) : JsonValue :=
  match v with
  | JsonValue.arr xs =>
      match allStringFragments xs with
      | some ss => JsonValue.str (String.join ss)
      | none => JsonValue.arr xs
  | v => v

/-- Models `CodeCell._compare_multiline_text` (src/ipynb_test/cell.py lines
92-95): both sides are joined if given as fragment lists, then compared for
exact equality. -/
def compare_multiline_text (exec_text original_text : JsonValue) : Bool :=
  normalize_text exec_text == normalize_text original_text

/-- Key list of a Python dict modelled as an association list. -/
def dictKeys (d : List (String × JsonValue)) : List String := d.map Prod.fst

/-- Membership of a key in a key list (Python `in` on `dict.keys()`). -/
def keyMem (k : String) (ks : List String) : Bool := ks.any (fun x => k == x)

/-- One-sided inclusion of key sets. -/
def keysSubset (a b : List String) : Bool := a.all (fun k => keyMem k b)

/-- Equality of Python dict key views (`d1.keys() == d2.keys()`): set
equality of the key sets, i.e. mutual inclusion. -/
def keysEq (a b : List String) : Bool := keysSubset a b && keysSubset b a

/-- Python dict indexing `d[k]` modelled on the association list: first
binding wins (a real dict has unique keys); `none` models `KeyError`. -/
def dictGet (d : List (String × JsonValue)) (k : String) : Option JsonValue :=
  match d with
  | [] => none
  | (k', v) :: rest => if k' == k then some v else dictGet rest k

/-- An output record of a code cell, the tagged union over the four
`output_type` kinds that `CodeCell.test_match` dispatches on.
`display_data` and `execute_result` records both carry `data` and `metadata`
mappings; `execute_result` additionally carries an `execution_count`. -/
inductive OutputRecord where
  | stream (name : String) (text : JsonValue)
  | error (ename evalue : String) (traceback : JsonValue)
  | displayData (data : List (String × JsonValue)) (metadata : List (String × JsonValue))
  | executeResult (execution_count : Option Int) (data : List (String × JsonValue))
      (metadata : List (String × JsonValue))
deriving DecidableEq

/-- The `output_type` discriminator string of a record. -/
def output_type : OutputRecord → String
  | OutputRecord.stream _ _ => "stream"
  | OutputRecord.error _ _ _ => "error"
  | OutputRecord.displayData _ _ => "display_data"
  | OutputRecord.executeResult _ _ _ => "execute_result"

/-- Models `CodeCell._test_match_stream` (cell.py lines 97-106): the `name`
fields must be equal, then the `text` fields are compared as multi-line
text. -/
def test_match_stream (exec_name : String) (exec_text : JsonValue)
    (original_name : String) (original_text : JsonValue) : Bool :=
  if exec_name != original_name then false
  else compare_multiline_text exec_text original_text

/-- Models `CodeCell._test_match_error` (cell.py lines 108-115): raw equality
of the `ename`, `evalue` and `traceback` fields (no normalization of the
traceback is performed by the source). -/
def test_match_error (exec_ename exec_evalue : String) (exec_traceback : JsonValue)
    (orig_ename orig_evalue : String) (orig_traceback : JsonValue) : Bool :=
  exec_ename == orig_ename && exec_evalue == orig_evalue
    && exec_traceback == orig_traceback

/-- Models `CodeCell._test_match_execute_result` (cell.py lines 117-158),
shared by `display_data` and `execute_result` records: the `data` key sets
must be set-equal; then each key of the fresh record is dispatched on:
`text/plain` is compared as multi-line text, `application/json` by deep
equality, `image/png` by deep equality of the payload and of the per-key
metadata entries (`metadata.get(key)` on both sides).  Any other key falls
through the `match` with no comparison, exactly as in the source. -/
def test_match_execute_result (exec_data exec_metadata original_data
    original_metadata : List (String × JsonValue)) : Bool :=
  if keysEq (dictKeys exec_data) (dictKeys original_data) = false then false
  else exec_data.all fun kv =>
    match kv.1 with
    | "text/plain" =>
        match dictGet original_data kv.1 with
        | some ov => compare_multiline_text kv.2 ov
        | none => false
    | "application/json" =>
        match dictGet original_data kv.1 with
        | some ov => kv.2 == ov
        | none => false
    | "image/png" =>
        (match dictGet original_data kv.1 with
         | some ov => kv.2 == ov
         | none => false)
        && (dictGet exec_metadata kv.1 == dictGet original_metadata kv.1)
    | _ => true

/-- One iteration of the positional loop of `CodeCell.test_match` (cell.py
lines 75-88): the `output_type` discriminators must be equal — distinct
constructors have distinct discriminators, so mismatched constructors yield
false — and the pair is then dispatched to the per-kind matcher. -/
def match_record (e o : OutputRecord) : Bool :=
  match e, o with
  | OutputRecord.stream en et, OutputRecord.stream n2 t2 =>
      test_match_stream en et n2 t2
  | OutputRecord.error en ev et, OutputRecord.error n2 v2 t2 =>
      test_match_error en ev et n2 v2 t2
  | OutputRecord.displayData ed em, OutputRecord.displayData od om =>
      test_match_execute_result ed em od om
  | OutputRecord.executeResult _ ed em, OutputRecord.executeResult _ od om =>
      test_match_execute_result ed em od om
  | _, _ => false

/-- The `for ... in zip(exec_outputs, original_outputs)` loop body of
`CodeCell.test_match`: every positional pair must match. -/
def matchZip : List OutputRecord → List OutputRecord → Bool
  | e :: es, o :: os => match_record e o && matchZip es os
  | _, _ => true

/-- Models `CodeCell.test_match` (cell.py lines 68-90), the specification
`OutputMatcher.matches`: lengths must be equal, then each positional pair
must match. -/
def test_match (exec_outputs original_outputs : List OutputRecord) : Bool :=
  if exec_outputs.length != original_outputs.length then false
  else matchZip exec_outputs original_outputs

/-- An executor session (the callable yielded by `Kernel.client_factory`):
given cell source text it returns the fresh output records and the errored
flag. -/
def Executor : Type := String → List OutputRecord × Bool

/-- Models the `CodeCell` constructor state (cell.py lines 5-17). -/
structure CodeCell where
  source : String
  original_outputs : List OutputRecord
  exec_count : Option Int
  metadata : List (String × JsonValue)
  cell_id : Option Int

/-- `CodeCell.test_match` compares fresh execution outputs against the
recorded `self.original_outputs`. -/
def CodeCell.run_test_match (c : CodeCell) (exec_outputs : List OutputRecord) : Bool :=
  test_match exec_outputs c.original_outputs

/-- Models `CodeCell.report_error` (cell.py lines 162-174): the diagnostic
value printed for the last output record.  The record is indexed at
`"traceback"`; a list traceback is joined with newlines.  `none` models the
uncaught exception Python raises when the record has no traceback field
(`KeyError`) or the list holds a non-string (`TypeError` in `"\n".join`). -/
def report_error (error_msg : OutputRecord) : Option JsonValue :=
  match error_msg with
  | OutputRecord.error _ _ traceback =>
      match traceback with
      | JsonValue.arr xs =>
          (allStringFragments xs).map (fun ss => JsonValue.str (String.intercalate "\n" ss))
      | v => some v
  | _ => none

/-- Models `CodeCell.test` (cell.py lines 53-66).  The result is `Option Bool`:
`some b` when the Python method returns `b`, `none` when it raises — which
can only happen on the verbose error-reporting path, where
`exec_outputs[-1]` is indexed (`IndexError` on an empty list) and passed to
`report_error`. -/
def CodeCell.test (c : CodeCell) (executor : Executor) (verbose match_output : Bool) :
    Option Bool :=
  let res := executor c.source
  let exec_outputs := res.1
  let errored := res.2
  if errored then
    if verbose then
      match exec_outputs.getLast? with
      | none => none
      | some last =>
          match report_error last with
          | none => none
          | some _ => some false
    else some false
  else if match_output then some (c.run_test_match exec_outputs)
  else some true

/-- Modelled from the spec: the `Notebook` collaborator
(src/ipynb_test/notebook.py is not in the source tree).  Per §2 and §4.3 a
Notebook exposes a test capability taking an executor session, the seed and
the verbose/matchOutput flags, and returning the per-notebook pass/fail
boolean.  We model a Notebook by that capability. -/
structure Notebook where
  run : Executor → Int → Bool → Bool → Bool

/-- Models the `Tester` state built by `Tester.__init__` / `Tester.cli`
(tester.py lines 10-41).  `client_factory` stands for
`self.kernel.client_factory()` (src/ipynb_test/kernel.py is not in the
source tree): each call yields a fresh executor session. -/
structure Tester where
  client_factory : Unit → Executor
  num_threads : Nat
  notebooks : List Notebook
  seed : Int
  verbose : Bool
  match_output : Bool

/-- Models `Tester.test_notebook` (tester.py lines 44-46): acquires a scoped
executor session and runs the notebook test, discarding its boolean
result. -/
def Tester.test_notebook (t : Tester) (notebook : Notebook) : Unit :=
  let executor := t.client_factory ()
  let _ := notebook.run executor t.seed t.verbose t.match_output
  ()

/-- Models `Tester.test` (tester.py lines 48-51): a single sequential loop
over `self.notebooks` invoking `test_notebook` on each; nothing is collected
or returned (the Python method returns `None`). -/
def Tester.test (t : Tester) : Unit :=
  t.notebooks.foldl (fun _ nb => t.test_notebook nb) ()

/-- The ordered sequence of per-notebook boolean results produced (and
immediately discarded) by the loop of `Tester.test`: the observable call
trace of the orchestrator.  Each configured notebook is tested exactly once,
in list order, by the single calling thread. -/
def Tester.test_results (t : Tester) : List Bool :=
  t.notebooks.map (fun nb => nb.run (t.client_factory ()) t.seed t.verbose t.match_output)

/-- Well-formedness of one output record: the `data` mapping of a rich
record has no duplicate keys (guaranteed for real Python dicts). -/
def recordWF : OutputRecord → Bool
  | OutputRecord.displayData d _ => decide (dictKeys d).Nodup
  | OutputRecord.executeResult _ d _ => decide (dictKeys d).Nodup
  | _ => true

/-- Well-formedness of an output-record sequence. -/
def recordsWF (X : List OutputRecord) : Bool := X.all recordWF

/-- Two records are equal except possibly in their `execution_count`. -/
def eq_except_count : OutputRecord → OutputRecord → Bool
  | OutputRecord.executeResult _ d m, OutputRecord.executeResult _ d2 m2 =>
      d == d2 && m == m2
  | r, r2 => r == r2

/-- `TextRep v s`: the JSON value `v` is a representation of the text `s`,
either as the single string `s` or as an ordered list of string fragments
concatenating to `s`. -/
def TextRep (v : JsonValue) (s : String) : Prop :=
  v = JsonValue.str s ∨
    ∃ frags, v = JsonValue.arr (frags.map JsonValue.str) ∧ String.join frags = s

/-- Modelled from the spec: conformance of an executor session to the
ExecutorSession contract (§4.1, §6, §7; src/ipynb_test/kernel.py is not in
the source tree).  When a run errors, the result records end with the error
record whose traceback can be reported. -/
def ExecutorConforming (ex : Executor) : Prop :=
  ∀ src res, ex src = res → res.2 = true →
    ∃ last, res.1.getLast? = some last ∧ (report_error last).isSome

/-! ### Helper lemmas -/

theorem jsonBeq_def (a b : JsonValue) : (a == b) = JsonValue.beq a b := rfl

theorem keyMem_of_mem {k : String} {ks : List String} (h : k ∈ ks) :
    keyMem k ks = true := by
  unfold keyMem
  rw [List.any_eq_true]
  exact ⟨k, h, by simp⟩

theorem mem_of_keyMem {k : String} {ks : List String} (h : keyMem k ks = true) :
    k ∈ ks := by
  unfold keyMem at h
  rw [List.any_eq_true] at h
  obtain ⟨x, hx, hkx⟩ := h
  rw [beq_iff_eq] at hkx
  exact hkx ▸ hx

theorem keysEq_refl (ks : List String) : keysEq ks ks = true := by
  unfold keysEq keysSubset
  rw [Bool.and_self, List.all_eq_true]
  exact fun k hk => keyMem_of_mem hk

theorem mem_keys_of_mem {d : List (String × JsonValue)} {k : String} {v : JsonValue}
    (h : (k, v) ∈ d) : k ∈ dictKeys d :=
  List.mem_map.mpr ⟨(k, v), h, rfl⟩

theorem exists_dictGet_of_mem_keys {d : List (String × JsonValue)} {k : String}
    (h : k ∈ dictKeys d) : ∃ v, dictGet d k = some v := by
  induction d with
  | nil => simp [dictKeys] at h
  | cons kv rest ih =>
      obtain ⟨k2, v2⟩ := kv
      by_cases hk : k2 = k
      · exact ⟨v2, by simp [dictGet, hk]⟩
      · have hmem : k ∈ dictKeys rest := by
          simp [dictKeys] at h ⊢
          rcases h with h | h
          · exact absurd h.symm hk
          · exact h
        obtain ⟨v, hv⟩ := ih hmem
        exact ⟨v, by simp [dictGet, hk, hv]⟩

theorem dictGet_of_mem_nodup {d : List (String × JsonValue)} {k : String} {v : JsonValue}
    (hnd : (dictKeys d).Nodup) (h : (k, v) ∈ d) : dictGet d k = some v := by
  induction d with
  | nil => simp at h
  | cons kv rest ih =>
      obtain ⟨k2, v2⟩ := kv
      rcases List.mem_cons.mp h with h | h
      · obtain ⟨rfl, rfl⟩ := Prod.mk.injEq .. ▸ h
        simp [dictGet]
      · have hne : k2 ≠ k := by
          intro he
          subst he
          exact (List.nodup_cons.mp hnd).1 (mem_keys_of_mem h)
        have := ih (List.nodup_cons.mp hnd).2 h
        simp [dictGet, hne, this]

theorem test_match_execute_result_refl (d m : List (String × JsonValue))
    (hnd : (dictKeys d).Nodup) : test_match_execute_result d m d m = true := by
  unfold test_match_execute_result
  rw [keysEq_refl]
  simp only [Bool.true_eq_false, if_false, List.all_eq_true]
  intro kv hkv
  have hget : dictGet d kv.1 = some kv.2 := dictGet_of_mem_nodup hnd hkv
  split
  · rw [hget]
    simp [compare_multiline_text]
  · rw [hget]
    simp
  · rw [hget]
    simp
  · rfl

theorem match_record_refl {r : OutputRecord} (h : recordWF r = true) :
    match_record r r = true := by
  cases r with
  | stream n t =>
      simp [match_record, test_match_stream, compare_multiline_text]
  | error en ev tb =>
      simp [match_record, test_match_error]
  | displayData d m =>
      rw [recordWF, decide_eq_true_iff] at h
      exact test_match_execute_result_refl d m h
  | executeResult c d m =>
      rw [recordWF, decide_eq_true_iff] at h
      exact test_match_execute_result_refl d m h

theorem matchZip_refl {X : List OutputRecord} (h : recordsWF X = true) :
    matchZip X X = true := by
  induction X with
  | nil => rfl
  | cons r rest ih =>
      rw [recordsWF, List.all_cons, Bool.and_eq_true] at h
      rw [matchZip, match_record_refl h.1, ih h.2, Bool.and_self]

theorem match_record_false_of_ne_type {e o : OutputRecord}
    (h : output_type e ≠ output_type o) : match_record e o = false := by
  cases e <;> cases o <;> first
    | rfl
    | exact absurd rfl h

theorem matchZip_false_of_get :
    ∀ (es os : List OutputRecord) (i : Nat) (h : i < es.length) (h2 : i < os.length),
      match_record (es.get ⟨i, h⟩) (os.get ⟨i, h2⟩) = false → matchZip es os = false
  | [], _, i, h, _, _ => absurd h (by simp)
  | _ :: _, [], i, _, h2, _ => absurd h2 (by simp)
  | e :: es, o :: os, 0, _, _, hmr => by
      simp only [List.get] at hmr
      rw [matchZip, hmr, Bool.false_and]
  | e :: es, o :: os, i + 1, h, h2, hmr => by
      rw [matchZip]
      have := matchZip_false_of_get es os i (by simpa using h) (by simpa using h2)
        (by simpa using hmr)
      rw [this, Bool.and_false]

theorem match_record_of_eq_except {e o : OutputRecord}
    (hwf : recordWF e = true) (h : eq_except_count e o = true) :
    match_record e o = true := by
  cases e with
  | stream n t =>
      cases o <;> simp [eq_except_count, beq_iff_eq] at h
      obtain ⟨rfl, rfl⟩ := h
      exact match_record_refl hwf
  | error en ev tb =>
      cases o <;> simp [eq_except_count, beq_iff_eq] at h
      obtain ⟨rfl, rfl, rfl⟩ := h
      exact match_record_refl hwf
  | displayData d m =>
      cases o <;> simp [eq_except_count, beq_iff_eq] at h
      obtain ⟨rfl, rfl⟩ := h
      exact match_record_refl hwf
  | executeResult c d m =>
      cases o with
      | executeResult c2 d2 m2 =>
          simp only [eq_except_count, Bool.and_eq_true, beq_iff_eq] at h
          obtain ⟨rfl, rfl⟩ := h
          rw [recordWF, decide_eq_true_iff] at hwf
          exact test_match_execute_result_refl d m hwf
      | _ => simp [eq_except_count, beq_iff_eq] at h

theorem matchZip_of_eq_except :
    ∀ (X Y : List OutputRecord), recordsWF X = true →
      (X.zip Y).all (fun p => eq_except_count p.1 p.2) = true → matchZip X Y = true
  | [], ys, _, _ => by cases ys <;> rfl
  | _ :: _, [], _, _ => rfl
  | x :: xs, y :: ys, hwf, h => by
      rw [recordsWF, List.all_cons, Bool.and_eq_true] at hwf
      rw [List.zip_cons_cons, List.all_cons, Bool.and_eq_true] at h
      rw [matchZip, match_record_of_eq_except hwf.1 h.1,
        matchZip_of_eq_except xs ys hwf.2 h.2, Bool.and_self]

/-! ### Claim theorems -/

/-- C8: `OutputMatcher.matches` is reflexive — for every well-formed
output-record sequence `X` (no duplicate keys inside the `data` mapping of a
rich record, as guaranteed for Python dicts), `test_match X X = true`. -/
theorem output_matcher_reflexive (X : List OutputRecord) (h : recordsWF X = true) :
    test_match X X = true := by
  rw [test_match]
  simp only [bne_self_eq_false, Bool.false_eq_true, if_false]
  exact matchZip_refl h

/-- A sample well-formed sequence exercising all four record kinds. -/
def sampleOutputs : List OutputRecord :=
  [OutputRecord.stream "stdout" (JsonValue.str "a"),
   OutputRecord.error "E" "v" (JsonValue.arr [JsonValue.str "t"]),
   OutputRecord.displayData [("text/plain", JsonValue.str "x")] [],
   OutputRecord.executeResult (some 1)
     [("image/png", JsonValue.str "P"),
      ("application/json", JsonValue.obj [("a", JsonValue.num 1)]),
      ("text/html", JsonValue.null)]
     [("image/png", JsonValue.obj [("width", JsonValue.num 10)])]]

/-- Witness for C8 at a concrete sequence covering every record kind. -/
theorem output_matcher_reflexive_witness : test_match sampleOutputs sampleOutputs = true :=
  output_matcher_reflexive sampleOutputs (by decide)

/-- C10: `OutputMatcher.matches` ignores the `execution_count` field — for
every pair of equal-length record sequences that agree positionally up to
the `execution_count` of `execute_result` records (the well-formed fresh
side having duplicate-free data keys), the comparison succeeds. -/
theorem execution_count_ignored (X Y : List OutputRecord)
    (hwf : recordsWF X = true) (hlen : X.length = Y.length)
    (h : (X.zip Y).all (fun p => eq_except_count p.1 p.2) = true) :
    test_match X Y = true := by
  rw [test_match, hlen]
  simp only [bne_self_eq_false, Bool.false_eq_true, if_false]
  exact matchZip_of_eq_except X Y hwf h

/-- Witness for C10: two singleton sequences differing only in the
`execution_count` of an `execute_result` record compare as equal. -/
theorem execution_count_ignored_witness :
    test_match [OutputRecord.executeResult (some 1) [("text/plain", JsonValue.str "4")] []]
      [OutputRecord.executeResult (some 7) [("text/plain", JsonValue.str "4")] []] = true :=
  execution_count_ignored _ _ (by decide) (by decide)
    (by simp [eq_except_count])

/-- C5: `OutputMatcher.matches` is strictly positional — sequences of
unequal length never match, and with equal lengths a single positional pair
with differing `output_type` discriminators makes the whole comparison
false. -/
theorem strict_positional (ex orig : List OutputRecord) :
    (ex.length ≠ orig.length → test_match ex orig = false)
    ∧ (∀ (i : Nat) (h : i < ex.length) (h2 : i < orig.length),
        output_type (ex.get ⟨i, h⟩) ≠ output_type (orig.get ⟨i, h2⟩) →
        test_match ex orig = false) := by
  have hlen : ex.length ≠ orig.length → test_match ex orig = false := by
    intro h
    rw [test_match]
    simp [bne_iff_ne, h]
  refine ⟨hlen, ?_⟩
  intro i h h2 hty
  by_cases he : ex.length = orig.length
  · rw [test_match, he]
    simp only [bne_self_eq_false, Bool.false_eq_true, if_false]
    exact matchZip_false_of_get ex orig i h h2 (match_record_false_of_ne_type hty)
  · exact hlen he

/-- Witness for C5: a length mismatch and a kind mismatch, each at a
concrete input. -/
theorem strict_positional_witness :
    test_match [OutputRecord.stream "stdout" JsonValue.null] [] = false
    ∧ test_match [OutputRecord.stream "stdout" JsonValue.null]
        [OutputRecord.error "E" "v" JsonValue.null] = false :=
  ⟨(strict_positional [OutputRecord.stream "stdout" JsonValue.null] []).1 (by decide),
   (strict_positional [OutputRecord.stream "stdout" JsonValue.null]
       [OutputRecord.error "E" "v" JsonValue.null]).2 0 (by decide) (by decide) (by decide)⟩

theorem allStringFragments_map (frags : List String) :
    allStringFragments (frags.map JsonValue.str) = some frags := by
  induction frags with
  | nil => rfl
  | cons s rest ih => simp [allStringFragments, ih]

theorem normalize_of_textRep {v : JsonValue} {s : String} (h : TextRep v s) :
    normalize_text v = JsonValue.str s := by
  rcases h with rfl | ⟨frags, rfl, rfl⟩
  · rfl
  · simp [normalize_text, allStringFragments_map]

/-- C7: multi-line text normalization is split-invariant — comparing any two
representations of texts `sa` and `sb` (a single string, or fragments
concatenating to it) gives exactly the comparison of `sa` and `sb`, both for
`compare_multiline_text` itself and for stream records with agreeing
names. -/
theorem multiline_split_invariant (n : String) (ea oa : JsonValue) (sa sb : String)
    (ha : TextRep ea sa) (hb : TextRep oa sb) :
    compare_multiline_text ea oa = (sa == sb)
    ∧ test_match [OutputRecord.stream n ea] [OutputRecord.stream n oa] = (sa == sb) := by
  have hcmp : compare_multiline_text ea oa = (sa == sb) := by
    rw [compare_multiline_text, normalize_of_textRep ha, normalize_of_textRep hb,
      jsonBeq_def, JsonValue.beq]
  refine ⟨hcmp, ?_⟩
  simp [test_match, matchZip, match_record, test_match_stream, hcmp]

/-- Witness for C7, specification scenario A: text `"hello\n"` as a single
string matches the same text as a one-fragment list. -/
theorem multiline_split_invariant_witness :
    test_match [OutputRecord.stream "stdout" (JsonValue.str "hello\n")]
      [OutputRecord.stream "stdout" (JsonValue.arr [JsonValue.str "hello\n"])] = true := by
  have h := multiline_split_invariant "stdout" (JsonValue.str "hello\n")
    (JsonValue.arr [JsonValue.str "hello\n"]) "hello\n" "hello\n"
    (Or.inl rfl) (Or.inr ⟨["hello\n"], rfl, rfl⟩)
  simpa using h.2

/-- C6: for a positional pair of rich records sharing an `image/png` data
key, the comparison fails when the encoded payloads differ or when the
per-key `image/png` metadata entries differ — even with identical
payloads. -/
theorem image_png_metadata_checked (ec oc : Option Int)
    (ed em od om : List (String × JsonValue))
    (hnd : (dictKeys ed).Nodup)
    (hke : "image/png" ∈ dictKeys ed)
    (hko : "image/png" ∈ dictKeys od)
    (hdiff : dictGet ed "image/png" ≠ dictGet od "image/png"
      ∨ dictGet em "image/png" ≠ dictGet om "image/png") :
    test_match_execute_result ed em od om = false
    ∧ test_match [OutputRecord.executeResult ec ed em]
        [OutputRecord.executeResult oc od om] = false := by
  have hmain : test_match_execute_result ed em od om = false := by
    rw [test_match_execute_result]
    by_cases hkeys : keysEq (dictKeys ed) (dictKeys od) = false
    · rw [if_pos hkeys]
    · rw [if_neg hkeys]
      obtain ⟨⟨k, pv⟩, hin, hk⟩ := List.mem_map.mp hke
      dsimp only at hk
      subst hk
      have hget : dictGet ed "image/png" = some pv := dictGet_of_mem_nodup hnd hin
      apply Bool.eq_false_iff.mpr
      intro hall
      rw [List.all_eq_true] at hall
      have hbranch := hall ("image/png", pv) hin
      simp only [Bool.and_eq_true] at hbranch
      rcases hdiff with hd | hd
      · rw [hget] at hd
        cases hodg : dictGet od "image/png" with
        | none => rw [hodg] at hbranch; simp at hbranch
        | some ov =>
            rw [hodg] at hd hbranch
            simp only [beq_iff_eq] at hbranch
            exact hd (by rw [hbranch.1])
      · rw [beq_eq_false_iff_ne.mpr hd] at hbranch
        simp at hbranch
  refine ⟨hmain, ?_⟩
  simp [test_match, matchZip, match_record, hmain]

/-- Witness for C6, specification scenario C: identical `image/png` payloads
but declared width 10 vs. 20 in the per-key metadata fail the comparison. -/
theorem image_png_metadata_checked_witness :
    test_match
      [OutputRecord.executeResult (some 1)
        [("image/png", JsonValue.str "AAA"), ("text/plain", JsonValue.str "x")]
        [("image/png", JsonValue.obj [("width", JsonValue.num 10)])]]
      [OutputRecord.executeResult (some 1)
        [("image/png", JsonValue.str "AAA"), ("text/plain", JsonValue.str "x")]
        [("image/png", JsonValue.obj [("width", JsonValue.num 20)])]] = false :=
  (image_png_metadata_checked (some 1) (some 1) _ _ _ _ (by decide) (by decide) (by decide)
    (Or.inr (by simp [dictGet]))).2

/-- C1 counterexample: two records with identical key sets that differ only
in the value under the unrecognized content-type key `text/html`
nevertheless match — the source skips unrecognized keys instead of comparing
them by deep equality, so no such pair can make the comparison fail. -/
theorem unrecognized_keys_counterexample :
    JsonValue.str "a" ≠ JsonValue.str "b"
    ∧ test_match [OutputRecord.displayData [("text/html", JsonValue.str "a")] []]
        [OutputRecord.displayData [("text/html", JsonValue.str "b")] []] = true := by
  constructor
  · simp
  · simp [test_match, matchZip, match_record, test_match_execute_result, keysEq,
      keysSubset, keyMem, dictKeys]

/-- C1 amended: a shared data key whose content-type label is not one of
`text/plain`, `application/json`, `image/png` is skipped entirely — when all
keys of two rich records with set-equal data keys are unrecognized, the
comparison succeeds regardless of the stored values. -/
theorem unrecognized_keys_ignored (ed em od om : List (String × JsonValue))
    (hkeys : keysEq (dictKeys ed) (dictKeys od) = true)
    (hunrec : ∀ k ∈ dictKeys ed,
      k ≠ "text/plain" ∧ k ≠ "application/json" ∧ k ≠ "image/png") :
    test_match_execute_result ed em od om = true := by
  rw [test_match_execute_result, if_neg (by simp [hkeys]), List.all_eq_true]
  intro kv hkv
  obtain ⟨h1, h2, h3⟩ := hunrec kv.1 (mem_keys_of_mem hkv)
  split
  · exact absurd (by assumption) h1
  · exact absurd (by assumption) h2
  · exact absurd (by assumption) h3
  · rfl

/-- Witness for C1 amended: records whose only key is `text/html`, with
different values, compare as equal. -/
theorem unrecognized_keys_ignored_witness :
    test_match_execute_result [("text/html", JsonValue.str "a")] []
      [("text/html", JsonValue.str "b")] [] = true :=
  unrecognized_keys_ignored _ _ _ _ (by decide) (by decide)

/-- C2 counterexample: a traceback given as the single string `"ab"` and the
same traceback given as the one-fragment list `["ab"]` normalize to the same
multi-line text, yet the error comparison returns false — the source
compares tracebacks by raw equality without fragment normalization. -/
theorem error_traceback_not_normalized_cex :
    compare_multiline_text (JsonValue.str "ab") (JsonValue.arr [JsonValue.str "ab"]) = true
    ∧ test_match [OutputRecord.error "E" "v" (JsonValue.str "ab")]
        [OutputRecord.error "E" "v" (JsonValue.arr [JsonValue.str "ab"])] = false := by
  constructor
  · simp [compare_multiline_text, normalize_text, allStringFragments, String.join,
      jsonBeq_def, JsonValue.beq]
  · simp [test_match, matchZip, match_record, test_match_error, jsonBeq_def, JsonValue.beq]

/-- C2 amended: an error-pair comparison succeeds iff exception-name,
exception-value and traceback are equal by raw deep equality — no
normalization is applied to the traceback, so a string-form traceback never
equals a list-form one. -/
theorem error_match_raw_equality (en ev n2 v2 : String) (tb t2 : JsonValue)
    (s : String) (frags : List JsonValue) :
    (match_record (OutputRecord.error en ev tb) (OutputRecord.error n2 v2 t2) = true
      ↔ (en = n2 ∧ ev = v2 ∧ tb = t2))
    ∧ match_record (OutputRecord.error en ev (JsonValue.str s))
        (OutputRecord.error n2 v2 (JsonValue.arr frags)) = false := by
  constructor
  · simp [match_record, test_match_error, and_assoc]
  · have hne : (JsonValue.str s == JsonValue.arr frags) = false := by
      rw [beq_eq_false_iff_ne]
      simp
    simp [match_record, test_match_error, hne]

/-- C4: for every code cell run with a conforming executor — on error the
result records end in a reportable error record, per the ExecutorSession
contract — `test` returns false whenever `errored` is true, independently of
the recorded outputs (no comparison is attempted); returns true when not
errored and `match_output` is off; and returns exactly the comparison result
when not errored and `match_output` is on. -/
theorem code_cell_test_spec (c : CodeCell) (ex : Executor) (verbose mo : Bool)
    (hconf : ExecutorConforming ex) :
    ((ex c.source).2 = true →
        c.test ex verbose mo = some false
        ∧ ∀ orig2 : List OutputRecord,
            (CodeCell.mk c.source orig2 c.exec_count c.metadata c.cell_id).test
              ex verbose mo = some false)
    ∧ ((ex c.source).2 = false → mo = false → c.test ex verbose mo = some true)
    ∧ ((ex c.source).2 = false → mo = true →
        c.test ex verbose mo = some (test_match (ex c.source).1 c.original_outputs)) := by
  refine ⟨?_, ?_, ?_⟩
  · intro herr
    have hfalse : ∀ cc : CodeCell, cc.source = c.source →
        cc.test ex verbose mo = some false := by
      intro cc hsrc
      rw [CodeCell.test]
      simp only [hsrc, herr, if_true]
      cases verbose with
      | false => rfl
      | true =>
          obtain ⟨last, hlast, hrep⟩ := hconf c.source (ex c.source) rfl herr
          obtain ⟨v, hv⟩ := Option.isSome_iff_exists.mp hrep
          simp only [hlast, hv]
          simp
    exact ⟨hfalse c rfl, fun orig2 => hfalse ⟨c.source, orig2, c.exec_count,
      c.metadata, c.cell_id⟩ rfl⟩
  · intro herr hmo
    rw [CodeCell.test]
    simp [herr, hmo]
  · intro herr hmo
    rw [CodeCell.test]
    simp [herr, hmo, CodeCell.run_test_match]

/-- An executor that always errors, producing a reportable error record. -/
def exErr : Executor :=
  fun _ => ([OutputRecord.error "E" "V" (JsonValue.arr [JsonValue.str "tb"])], true)

/-- An executor that always succeeds with no outputs. -/
def exOk : Executor := fun _ => ([], false)

theorem exErr_conforming : ExecutorConforming exErr := by
  intro src res h _
  subst h
  exact ⟨_, rfl, rfl⟩

theorem exOk_conforming : ExecutorConforming exOk := by
  intro src res h htrue
  subst h
  exact absurd htrue (by simp [exOk])

/-- Witness for C4 at a concrete cell: the erroring executor forces false,
and the non-erroring executor gives true without matching and the
comparison result with matching. -/
theorem code_cell_test_spec_witness :
    CodeCell.test ⟨"x = 1", [], none, [], none⟩ exErr true true = some false
    ∧ CodeCell.test ⟨"x = 1", [], none, [], none⟩ exOk true false = some true
    ∧ CodeCell.test ⟨"x = 1", [], none, [], none⟩ exOk true true
        = some (test_match [] []) :=
  ⟨((code_cell_test_spec ⟨"x = 1", [], none, [], none⟩ exErr true true
        exErr_conforming).1 rfl).1,
   (code_cell_test_spec ⟨"x = 1", [], none, [], none⟩ exOk true false
        exOk_conforming).2.1 rfl rfl,
   (code_cell_test_spec ⟨"x = 1", [], none, [], none⟩ exOk true true
        exOk_conforming).2.2 rfl rfl⟩

/-- A notebook whose test always passes. -/
def nbTrue : Notebook := ⟨fun _ _ _ _ => true⟩

/-- A notebook whose test always fails. -/
def nbFalse : Notebook := ⟨fun _ _ _ _ => false⟩

/-- A tester configured over the given notebooks with one thread, seed 0 and
both flags off. -/
def testerWith (nbs : List Notebook) : Tester :=
  ⟨fun _ => exOk, 1, nbs, 0, false, false⟩

/-- C3 counterexample: the orchestrator produces the very same (unit) result
for a run whose only notebook fails as for a run whose only notebook passes,
although the conjunctions of the per-notebook boolean results differ — so
the reported status cannot be the conjunction of the per-notebook results:
`Tester.test` discards every boolean and aggregates nothing. -/
theorem tester_no_aggregate_counterexample :
    Tester.test (testerWith [nbFalse]) = Tester.test (testerWith [nbTrue])
    ∧ (Tester.test_results (testerWith [nbFalse])).all id = false
    ∧ (Tester.test_results (testerWith [nbTrue])).all id = true :=
  ⟨rfl, rfl, rfl⟩

/-- C3 amended: the orchestrator invokes every configured notebook's test
exactly once, sequentially, but discards each boolean result; it returns the
unit value and reports no aggregate status. -/
theorem tester_runs_all_discards (t : Tester) :
    (Tester.test_results t).length = t.notebooks.length
    ∧ Tester.test t = () :=
  ⟨by simp [Tester.test_results], rfl⟩

/-- C9: the orchestrator ignores `num_threads` entirely — its test loop and
its trace of per-notebook runs are unchanged under any thread count, and the
trace is the sequential list of the configured notebooks, each tested
exactly once by the single calling thread (no partitioning across
workers). -/
theorem tester_ignores_num_threads (t : Tester) (n : Nat) :
    Tester.test_results { t with num_threads := n } = Tester.test_results t
    ∧ Tester.test { t with num_threads := n } = Tester.test t
    ∧ (Tester.test_results t).length = t.notebooks.length :=
  ⟨rfl, rfl, by simp [Tester.test_results]⟩
